import Mathlib

/-!
Formal model of the taxi ride-sharing simulation: locations, riders,
drivers, the dispatcher, the event state machine and the simulation loop,
translated from the python sources (location.py, rider.py, driver.py,
dispatcher.py, event.py, simulation.py).  Machine integers are modelled
by Int / Nat; the float division followed by the builtin round inside
Driver.get_travel_time is modelled by exact rational rounding with ties
to even, which is the behaviour of round on these quotients.
-/

namespace Taxi

/-- A two-dimensional grid location (location.py, class Location). -/
structure Location where
  row : Int
  col : Int
deriving DecidableEq

/-- Manhattan distance between two locations (location.py, manhattan_distance). -/
def manhattan_distance (origin destination : Location) : Nat :=
  (origin.row - destination.row).natAbs + (origin.col - destination.col).natAbs

/-- Rounding of n / d to the nearest integer with ties going to the even
neighbour: the behaviour of the python builtin round on the exact
quotient, as used by Driver.get_travel_time. -/
def roundHalfEven (n d : Nat) : Nat :=
  if 2 * (n % d) < d then n / d
  else if d < 2 * (n % d) then n / d + 1
  else if n / d % 2 = 0 then n / d else n / d + 1

/-- Rider status constants (rider.py: WAITING, CANCELLED, SATISFIED). -/
inductive RiderStatus where
  | waiting
  | cancelled
  | satisfied
deriving DecidableEq

/-- A rider (rider.py, class Rider). -/
structure Rider where
  id : String
  patience : Nat
  origin : Location
  dest : Location
  status : RiderStatus
deriving DecidableEq

/-- Rider construction (rider.py, Rider.__init__): the status starts waiting. -/
def Rider.make (identifier : String) (patience : Nat)
    (origin destination : Location) : Rider :=
  ⟨identifier, patience, origin, destination, RiderStatus.waiting⟩

/-- A driver (driver.py, class Driver). -/
structure Driver where
  id : String
  location : Location
  speed : Nat
  is_idle : Bool
  destination : Option Location
deriving DecidableEq

/-- Driver construction (driver.py, Driver.__init__): idle, no destination. -/
def Driver.make (identifier : String) (location : Location) (speed : Nat) : Driver :=
  ⟨identifier, location, speed, true, none⟩

/-- driver.py, Driver.get_travel_time: round(manhattan_distance / speed). -/
def Driver.get_travel_time (d : Driver) (destination : Location) : Nat :=
  roundHalfEven (manhattan_distance d.location destination) d.speed

/-- driver.py, Driver.start_drive: set the destination, clear idleness and
return the updated driver together with the returned travel time. -/
def Driver.start_drive (d : Driver) (location : Location) : Driver × Nat :=
  let d1 : Driver := { d with destination := some location, is_idle := false }
  (d1, d1.get_travel_time location)

/-- driver.py, Driver.end_drive: arrive at the destination.  The source
states the precondition that the destination is not None; the getD
default is never reached under that precondition. -/
def Driver.end_drive (d : Driver) : Driver :=
  { d with location := d.destination.getD d.location, destination := none,
           is_idle := true }

/-- driver.py, Driver.start_ride: move to the rider's origin, head for the
rider's destination, return the updated driver and the travel time, which
the source computes after the move. -/
def Driver.start_ride (d : Driver) (r : Rider) : Driver × Nat :=
  let d1 : Driver := { d with destination := some r.dest, location := r.origin,
                              is_idle := false }
  (d1, d1.get_travel_time r.dest)

/-- driver.py, Driver.end_ride: arrive at the destination (same body as
end_drive in the source). -/
def Driver.end_ride (d : Driver) : Driver :=
  { d with location := d.destination.getD d.location, destination := none,
           is_idle := true }

/-- The scan of Dispatcher.request_driver over the registered drivers:
temp keeps the first idle driver found, replaced whenever a strictly
smaller travel time to the rider's origin appears later in the list. -/
def selectGo (o : Location) : List Driver → Option Driver → Option Driver
  | [], temp => temp
  | d :: rest, temp =>
    if d.is_idle then
      let t := temp.getD d
      if d.get_travel_time o < t.get_travel_time o then selectGo o rest (some d)
      else selectGo o rest (some t)
    else selectGo o rest temp

/-- Replace the first occurrence of a in the list by b: the value-level
rendering of the in-place mutation of a list element through a reference. -/
def replaceFirst [DecidableEq α] : List α → α → α → List α
  | [], _, _ => []
  | x :: xs, a, b => if x = a then b :: xs else x :: replaceFirst xs a b

/-- Remove the first element satisfying p (python list.remove, which
compares with the eq of the class, here rendered by the predicate). -/
def removeFirstP (p : α → Prop) [DecidablePred p] : List α → List α
  | [] => []
  | x :: xs => if p x then xs else x :: removeFirstP p xs

/-- One pass of the python for-loop of Dispatcher.cancel_ride: the loop
index advances by one each iteration even when an element was removed,
exactly as iterating a python list while calling remove on it.  The fuel
equals the initial length, which bounds the number of iterations. -/
def pyCancelFuel (p : α → Prop) [DecidablePred p] : Nat → Nat → List α → List α
  | 0, _, q => q
  | fuel + 1, i, q =>
    if h : i < q.length then
      if p (q.get ⟨i, h⟩) then pyCancelFuel p fuel (i + 1) (removeFirstP p q)
      else pyCancelFuel p fuel (i + 1) q
    else q

/-- dispatcher.py, the body of Dispatcher.cancel_ride: iterate over the
waiting list removing the entries whose id matches. -/
def cancelLoop (p : α → Prop) [DecidablePred p] (q : List α) : List α :=
  pyCancelFuel p q.length 0 q

/-- dispatcher.py, class Dispatcher: the registered drivers and the FIFO
waiting list of riders. -/
structure Dispatcher where
  drivers : List Driver
  waiting : List Rider
deriving DecidableEq

/-- dispatcher.py, Dispatcher.__init__. -/
def Dispatcher.make : Dispatcher := ⟨[], []⟩

/-- dispatcher.py, Dispatcher.request_driver: pick the idle driver with
minimal travel time to the rider's origin (the first one scanned wins
ties), mark it busy toward the rider's origin; enqueue the rider at the
tail otherwise.  The selected value occurs in the list first at the
selected position, because every earlier idle driver has strictly greater
travel time, so replacing its first occurrence is exactly the in-place
pointer update of the source. -/
def Dispatcher.request_driver (disp : Dispatcher) (r : Rider) :
    Option Driver × Dispatcher :=
  if disp.drivers = [] then (none, { disp with waiting := disp.waiting ++ [r] })
  else
    match selectGo r.origin disp.drivers none with
    | none => (none, { disp with waiting := disp.waiting ++ [r] })
    | some d0 =>
      let d1 : Driver := { d0 with is_idle := false, destination := some r.origin }
      (some d1, { disp with drivers := replaceFirst disp.drivers d0 d1 })

/-- dispatcher.py, Dispatcher.request_rider: pop the head of the waiting
list if any and send the driver toward that rider; register the driver by
id if it is not registered yet.  Returns the matched rider, the driver as
mutated by the call, and the new dispatcher state. -/
def Dispatcher.request_rider (disp : Dispatcher) (driver : Driver) :
    Option Rider × Driver × Dispatcher :=
  match disp.waiting with
  | [] =>
    let ds := if disp.drivers.any (fun u => u.id == driver.id) then disp.drivers
      else disp.drivers ++ [driver]
    (none, driver, { disp with drivers := ds })
  | rider :: rest =>
    let driver1 : Driver := { driver with is_idle := false,
                                          destination := some rider.origin }
    let ds := if disp.drivers.any (fun u => u.id == driver.id) then disp.drivers
      else disp.drivers ++ [driver1]
    (some rider, driver1,
      { drivers := ds,
        waiting := removeFirstP (fun x => x.id = rider.id) (rider :: rest) })

/-- dispatcher.py, Dispatcher.cancel_ride. -/
def Dispatcher.cancel_ride (disp : Dispatcher) (r : Rider) : Dispatcher :=
  { disp with waiting := cancelLoop (fun passenger => r.id = passenger.id) disp.waiting }

/-- The global state of a running simulation: the stores of all rider and
driver objects keyed by id (python object references), together with the
dispatcher's waiting queue and registered list, which hold ids into the
stores.  A mutation through an aliased reference becomes an update of the
store entry, visible to every holder of the id. -/
structure World where
  riders : List Rider
  drivers : List Driver
  waitingQ : List String
  registered : List String
deriving DecidableEq

/-- Dereference a rider id in the store (first entry with that id). -/
def findRider (rs : List Rider) (rid : String) : Option Rider :=
  rs.find? (fun r => decide (r.id = rid))

/-- Dereference a driver id in the store (first entry with that id). -/
def findDriver (ds : List Driver) (did : String) : Option Driver :=
  ds.find? (fun d => decide (d.id = did))

/-- Mutate the rider object with the given id. -/
def updateRider (rs : List Rider) (rid : String) (f : Rider → Rider) : List Rider :=
  rs.map (fun r => if r.id = rid then f r else r)

/-- Mutate the driver object with the given id. -/
def updateDriver (ds : List Driver) (did : String) (f : Driver → Driver) : List Driver :=
  ds.map (fun d => if d.id = did then f d else d)

/-- Dispatcher.request_driver acting on the world: the dispatcher's
_drivers list is the registered ids dereferenced through the store; the
chosen driver is mutated in the store, and the result names it by id. -/
def requestDriverW (w : World) (rider : Rider) : Option String × World :=
  if w.registered = [] then
    (none, { w with waitingQ := w.waitingQ ++ [rider.id] })
  else
    match selectGo rider.origin (w.registered.filterMap (findDriver w.drivers)) none with
    | none => (none, { w with waitingQ := w.waitingQ ++ [rider.id] })
    | some d0 =>
      let ds := updateDriver w.drivers d0.id
        (fun x => { x with is_idle := false, destination := some rider.origin })
      (some d0.id, { w with drivers := ds })

/-- Register a driver id with the dispatcher if it is not registered yet
(the membership test of Dispatcher.request_rider). -/
def registerDriver (w : World) (did : String) : World :=
  if w.registered.contains did then w
  else { w with registered := w.registered ++ [did] }

/-- Dispatcher.request_rider acting on the world: pop the head of the
waiting queue if any, mutate the driver toward that rider's origin, then
register the driver id if new. -/
def requestRiderW (w : World) (did : String) : Option Rider × World :=
  match w.waitingQ with
  | [] => (none, registerDriver w did)
  | rid :: _ =>
    match findRider w.riders rid with
    | none => (none, registerDriver w did)
    | some rider =>
      let ds := updateDriver w.drivers did
        (fun d => { d with is_idle := false, destination := some rider.origin })
      let w1 : World :=
        { w with waitingQ := removeFirstP (fun x => x = rid) w.waitingQ, drivers := ds }
      (some rider, registerDriver w1 did)

/-- Dispatcher.cancel_ride acting on the world's queue of rider ids. -/
def cancelRideQ (q : List String) (rid : String) : List String :=
  cancelLoop (fun x => rid = x) q

/-- The five event kinds (event.py): each event carries its timestamp and
references its rider and driver objects by id. -/
inductive Event where
  | riderRequest (t : Nat) (rid : String)
  | driverRequest (t : Nat) (did : String)
  | cancellation (t : Nat) (rid : String)
  | pickup (t : Nat) (rid : String) (did : String)
  | dropoff (t : Nat) (rid : String) (did : String)
deriving DecidableEq

/-- The timestamp of an event (event.py, Event.timestamp). -/
def Event.timestamp : Event → Nat
  | .riderRequest t _ => t
  | .driverRequest t _ => t
  | .cancellation t _ => t
  | .pickup t _ _ => t
  | .dropoff t _ _ => t

/-- event.py, RiderRequest.do: ask the dispatcher for a driver; if one is
matched it starts driving to the rider's origin and a Pickup is scheduled
after the travel time; a Cancellation at the patience deadline is
appended in every case. -/
def doRiderRequest (w : World) (t : Nat) (rid : String) : World × List Event :=
  match findRider w.riders rid with
  | none => (w, [])
  | some rider =>
    let res := requestDriverW w rider
    match res.1 with
    | none => (res.2, [Event.cancellation (t + rider.patience) rid])
    | some did =>
      match findDriver res.2.drivers did with
      | none => (res.2, [Event.cancellation (t + rider.patience) rid])
      | some d =>
        let p := d.start_drive rider.origin
        ({ res.2 with drivers := updateDriver res.2.drivers did (fun _ => p.1) },
         [Event.pickup (t + p.2) rid did,
          Event.cancellation (t + rider.patience) rid])

/-- event.py, DriverRequest.do: ask the dispatcher for a rider (which
registers the driver if new); if one is matched the driver starts driving
to the rider's origin and a Pickup is scheduled after the travel time. -/
def doDriverRequest (w : World) (t : Nat) (did : String) : World × List Event :=
  match findDriver w.drivers did with
  | none => (w, [])
  | some _ =>
    let res := requestRiderW w did
    match res.1 with
    | none => (res.2, [])
    | some rider =>
      match findDriver res.2.drivers did with
      | none => (res.2, [])
      | some d =>
        let p := d.start_drive rider.origin
        ({ res.2 with drivers := updateDriver res.2.drivers did (fun _ => p.1) },
         [Event.pickup (t + p.2) rider.id did])

/-- event.py, Cancellation.do: only a waiting rider is cancelled, and is
then removed from the dispatcher's waiting queue; otherwise nothing
happens.  No follow-up events. -/
def doCancellation (w : World) (t : Nat) (rid : String) : World × List Event :=
  match findRider w.riders rid with
  | none => (w, [])
  | some rider =>
    if rider.status = RiderStatus.waiting then
      let rs := updateRider w.riders rid
        (fun r => { r with status := RiderStatus.cancelled })
      let w1 : World := { w with riders := rs }
      ({ w1 with waitingQ := cancelRideQ w1.waitingQ rid }, [])
    else (w, [])

/-- event.py, Pickup.do: a waiting rider is picked up (the driver ends its
drive, the rider becomes satisfied, the ride starts and a Dropoff is
scheduled); on a cancelled rider the driver ends its drive and requests a
new rider at the same timestamp; on a satisfied rider nothing happens. -/
def doPickup (w : World) (t : Nat) (rid : String) (did : String) : World × List Event :=
  match findRider w.riders rid, findDriver w.drivers did with
  | some rider, some driver =>
    if rider.status = RiderStatus.waiting then
      let d1 := driver.end_drive
      let rs := updateRider w.riders rid
        (fun r => { r with status := RiderStatus.satisfied })
      let w1 : World :=
        { w with drivers := updateDriver w.drivers did (fun _ => d1), riders := rs }
      let p := d1.start_ride rider
      ({ w1 with drivers := updateDriver w1.drivers did (fun _ => p.1) },
       [Event.dropoff (t + p.2) rid did])
    else if rider.status = RiderStatus.cancelled then
      ({ w with drivers := updateDriver w.drivers did (fun _ => driver.end_drive) },
       [Event.driverRequest t did])
    else (w, [])
  | _, _ => (w, [])

/-- event.py, Dropoff.do: the driver ends the ride, the rider is
defensively removed from the waiting queue, and the driver requests a new
rider at the same timestamp. -/
def doDropoff (w : World) (t : Nat) (rid : String) (did : String) : World × List Event :=
  match findDriver w.drivers did with
  | none => (w, [])
  | some driver =>
    let ds := updateDriver w.drivers did (fun _ => driver.end_ride)
    let w1 : World := { w with drivers := ds }
    ({ w1 with waitingQ := cancelRideQ w1.waitingQ rid },
     [Event.driverRequest t did])

/-- Execute one event against the world (the dispatch of Event.do over
the five concrete event classes of event.py). -/
def doEvent (w : World) : Event → World × List Event
  | .riderRequest t rid => doRiderRequest w t rid
  | .driverRequest t did => doDriverRequest w t did
  | .cancellation t rid => doCancellation w t rid
  | .pickup t rid did => doPickup w t rid did
  | .dropoff t rid did => doDropoff w t rid did

/-- Execute a list of events in the given order. -/
def execList (w : World) : List Event → World
  | [] => w
  | e :: es => execList (doEvent w e).1 es

/-- The status of the rider with the given id, if it exists. -/
def riderStatus (w : World) (rid : String) : Option RiderStatus :=
  (findRider w.riders rid).map Rider.status

/-- Modelled from the spec: container.py with the PriorityQueue used by
simulation.py is not among the repository sources.  Per the spec the
queue repeatedly removes a minimum-timestamp event; events sharing a
timestamp have unspecified relative order, here the earliest-inserted one
is taken.  Returns the extracted minimum and the remaining events. -/
def extractMinGo (acc : List Event) (best : Event) : List Event → Event × List Event
  | [] => (best, acc.reverse)
  | e :: rest =>
    if e.timestamp < best.timestamp then extractMinGo (best :: acc) e rest
    else extractMinGo (e :: acc) best rest

/-- Modelled from the spec: simulation.py, Simulation.run drains the
priority queue, executing the minimum-timestamp event and inserting the
events it returns, until the queue is empty.  The fuel bounds the number
of executed events; none signals exhausted fuel. -/
def runFuel : Nat → World → List Event → Option World
  | _, w, [] => some w
  | 0, _, _ :: _ => none
  | fuel + 1, w, e :: rest =>
    let p := extractMinGo [] e rest
    let q := doEvent w p.1
    runFuel fuel q.1 (p.2 ++ q.2)

/-- Termination weight of one pending event. -/
def eventWeight : Event → Nat
  | .riderRequest _ _ => 5
  | .driverRequest _ _ => 1
  | .cancellation _ _ => 1
  | .pickup _ _ _ => 3
  | .dropoff _ _ _ => 2

/-- Total termination weight of a list of pending events. -/
def weightSum (es : List Event) : Nat := (es.map eventWeight).sum

/-- Termination measure of a world with pending events: every event
execution strictly decreases it. -/
def measureW (w : World) (pending : List Event) : Nat :=
  3 * w.waitingQ.length + weightSum pending

/-- When the fractional part is at most one half, the floor is within one
half of the exact quotient. -/
lemma floor_within_half (n d : Nat) (hd : 0 < d) (h : 2 * (n % d) ≤ d) :
    |((n / d : Nat) : ℚ) - (n : ℚ) / (d : ℚ)| ≤ 1 / 2 := by
  have hdQ : (0 : ℚ) < (d : ℚ) := by exact_mod_cast hd
  have hn : (n : ℚ) = (d : ℚ) * ((n / d : Nat) : ℚ) + ((n % d : Nat) : ℚ) := by
    exact_mod_cast (Nat.div_add_mod n d).symm
  have hquot : (n : ℚ) / (d : ℚ) = ((n / d : Nat) : ℚ) + ((n % d : Nat) : ℚ) / (d : ℚ) := by
    rw [hn]; field_simp; ring
  rw [hquot]
  have heq : ((n / d : Nat) : ℚ) - (((n / d : Nat) : ℚ) + ((n % d : Nat) : ℚ) / (d : ℚ))
      = -(((n % d : Nat) : ℚ) / (d : ℚ)) := by ring
  rw [heq, abs_neg, abs_of_nonneg (by positivity)]
  rw [div_le_div_iff₀ hdQ (by norm_num : (0 : ℚ) < 2)]
  have hnat : (n % d) * 2 ≤ 1 * d := by omega
  exact_mod_cast hnat

/-- When the fractional part is at least one half, the ceiling step is
within one half of the exact quotient. -/
lemma ceil_within_half (n d : Nat) (hd : 0 < d) (h : d ≤ 2 * (n % d)) :
    |((n / d : Nat) : ℚ) + 1 - (n : ℚ) / (d : ℚ)| ≤ 1 / 2 := by
  have hdQ : (0 : ℚ) < (d : ℚ) := by exact_mod_cast hd
  have hn : (n : ℚ) = (d : ℚ) * ((n / d : Nat) : ℚ) + ((n % d : Nat) : ℚ) := by
    exact_mod_cast (Nat.div_add_mod n d).symm
  have hquot : (n : ℚ) / (d : ℚ) = ((n / d : Nat) : ℚ) + ((n % d : Nat) : ℚ) / (d : ℚ) := by
    rw [hn]; field_simp; ring
  rw [hquot]
  have heq : ((n / d : Nat) : ℚ) + 1 - (((n / d : Nat) : ℚ) + ((n % d : Nat) : ℚ) / (d : ℚ))
      = 1 - ((n % d : Nat) : ℚ) / (d : ℚ) := by ring
  have hrlt : n % d < d := Nat.mod_lt n hd
  have hle1 : ((n % d : Nat) : ℚ) / (d : ℚ) ≤ 1 := by
    rw [div_le_one hdQ]; exact_mod_cast hrlt.le
  rw [heq, abs_of_nonneg (by linarith)]
  have hhalf : (1 : ℚ) / 2 ≤ ((n % d : Nat) : ℚ) / (d : ℚ) := by
    rw [div_le_div_iff₀ (by norm_num : (0 : ℚ) < 2) hdQ]
    have hnat : 1 * d ≤ (n % d) * 2 := by omega
    exact_mod_cast hnat
  linarith

/-- roundHalfEven is a nearest-integer rounding of the exact quotient. -/
lemma roundHalfEven_nearest (n d : Nat) (hd : 0 < d) :
    |((roundHalfEven n d : Nat) : ℚ) - (n : ℚ) / (d : ℚ)| ≤ 1 / 2 := by
  unfold roundHalfEven
  split_ifs with h1 h2 h3
  · exact floor_within_half n d hd (by omega)
  · have := ceil_within_half n d hd (by omega)
    simpa using this
  · exact floor_within_half n d hd (by omega)
  · have := ceil_within_half n d hd (by omega)
    simpa using this

/-- An exact half always rounds to the even neighbour. -/
lemma roundHalfEven_tie_even (n d : Nat) (h : 2 * (n % d) = d) :
    roundHalfEven n d % 2 = 0 := by
  unfold roundHalfEven
  split_ifs with h1 h2 h3
  · omega
  · omega
  · exact h3
  · omega

/-- A world with a single idle registered driver half a grid unit away
from the single waiting rider (speed 2, distance 1). -/
def wHalf : World :=
  ⟨[⟨"RH", 4, ⟨0, 1⟩, ⟨9, 9⟩, RiderStatus.waiting⟩],
   [⟨"DH", ⟨0, 0⟩, 2, true, none⟩], [], ["DH"]⟩

/-- C8: manhattan_distance is the sum of the absolute coordinate
differences, a non-negative integer, and is symmetric; get_travel_time is
round(manhattan_distance / speed), a nearest-integer rounding of the
exact quotient, and is non-negative for positive speed. -/
theorem manhattan_travel_time_spec :
    (∀ A B : Location, manhattan_distance A B
        = (A.row - B.row).natAbs + (A.col - B.col).natAbs) ∧
    (∀ A B : Location, manhattan_distance A B = manhattan_distance B A) ∧
    (∀ (dr : Driver) (dest : Location), dr.get_travel_time dest
        = roundHalfEven (manhattan_distance dr.location dest) dr.speed) ∧
    (∀ (dr : Driver) (dest : Location), 0 < dr.speed →
        |((dr.get_travel_time dest : Nat) : ℚ)
            - ((manhattan_distance dr.location dest : Nat) : ℚ) / ((dr.speed : Nat) : ℚ)|
          ≤ 1 / 2 ∧ 0 ≤ ((dr.get_travel_time dest : Nat) : Int)) := by
  refine ⟨fun A B => rfl, fun A B => ?_, fun dr dest => rfl, fun dr dest h => ?_⟩
  · unfold manhattan_distance
    omega
  · exact ⟨roundHalfEven_nearest _ _ h, Int.ofNat_nonneg _⟩

/-- C8 witness: the nearest-rounding bound applied to a concrete driver
with speed 3 at distance 2, travel time 1. -/
theorem manhattan_travel_time_spec_witness :
    |(((Driver.mk "D" ⟨0, 0⟩ 3 true none).get_travel_time ⟨1, 1⟩ : Nat) : ℚ)
        - ((manhattan_distance ⟨0, 0⟩ ⟨1, 1⟩ : Nat) : ℚ) / ((3 : Nat) : ℚ)| ≤ 1 / 2 :=
  (manhattan_travel_time_spec.2.2.2 ⟨"D", ⟨0, 0⟩, 3, true, none⟩ ⟨1, 1⟩ (by decide)).1

/-- C10: get_travel_time rounds halves to the even neighbour (python
round): whenever the distance is an exact odd multiple of half the speed
the result is even; distance 1 at speed 2 gives 0, distance 3 at speed 2
gives 2, and a matched driver half a grid unit away produces a Pickup at
the same timestamp as the rider request. -/
theorem travel_time_ties_to_even :
    (∀ (dr : Driver) (dest : Location), 0 < dr.speed →
        2 * (manhattan_distance dr.location dest % dr.speed) = dr.speed →
        dr.get_travel_time dest % 2 = 0) ∧
    (Driver.mk "DH" ⟨0, 0⟩ 2 true none).get_travel_time ⟨0, 1⟩ = 0 ∧
    (Driver.mk "DH" ⟨0, 0⟩ 2 true none).get_travel_time ⟨0, 3⟩ = 2 ∧
    (doEvent wHalf (Event.riderRequest 5 "RH")).2
      = [Event.pickup 5 "RH" "DH", Event.cancellation 9 "RH"] := by
  refine ⟨fun dr dest _ h => roundHalfEven_tie_even _ _ h, by decide, by decide, by decide⟩

/-- C10 witness: the tie-to-even rule applied to a concrete driver with
speed 2 at distance 1. -/
theorem travel_time_ties_to_even_witness :
    (Driver.mk "DH" ⟨0, 0⟩ 2 true none).get_travel_time ⟨0, 1⟩ % 2 = 0 :=
  travel_time_ties_to_even.1 ⟨"DH", ⟨0, 0⟩, 2, true, none⟩ ⟨0, 1⟩ (by decide) (by decide)

/-- Running the request_driver scan with an occupied accumulator: the
result either is the accumulator, then no later idle driver beats it, or
it is a later idle driver which strictly beats the accumulator and every
idle driver before it, and is beaten by no idle driver after it. -/
lemma selectGo_some_spec (o : Location) :
    ∀ (l : List Driver) (t : Driver), ∃ u, selectGo o l (some t) = some u ∧
      ((u = t ∧ ∀ d ∈ l, d.is_idle = true →
          u.get_travel_time o ≤ d.get_travel_time o) ∨
        ∃ l1 l2, l = l1 ++ u :: l2 ∧ u.is_idle = true ∧
          u.get_travel_time o < t.get_travel_time o ∧
          (∀ e ∈ l1, e.is_idle = true →
            u.get_travel_time o < e.get_travel_time o) ∧
          (∀ e ∈ l2, e.is_idle = true →
            u.get_travel_time o ≤ e.get_travel_time o)) := by
  intro l
  induction l with
  | nil => exact fun t => ⟨t, rfl, Or.inl ⟨rfl, by simp⟩⟩
  | cons d rest ih =>
    intro t
    by_cases hid : d.is_idle = true
    · by_cases hlt : d.get_travel_time o < t.get_travel_time o
      · have hstep : selectGo o (d :: rest) (some t) = selectGo o rest (some d) := by
          simp [selectGo, hid, hlt]
        obtain ⟨u, hu, hcase⟩ := ih d
        refine ⟨u, hstep.trans hu, Or.inr ?_⟩
        rcases hcase with ⟨rfl, hmin⟩ | ⟨l1, l2, hsplit, huid, hult, h1, h2⟩
        · exact ⟨[], rest, rfl, hid, hlt, by simp, hmin⟩
        · refine ⟨d :: l1, l2, by simp [hsplit], huid, lt_trans hult hlt, ?_, h2⟩
          intro e he hei
          rcases List.mem_cons.mp he with rfl | he1
          · exact hult
          · exact h1 e he1 hei
      · have hstep : selectGo o (d :: rest) (some t) = selectGo o rest (some t) := by
          simp [selectGo, hid, hlt]
        obtain ⟨u, hu, hcase⟩ := ih t
        refine ⟨u, hstep.trans hu, ?_⟩
        rcases hcase with ⟨rfl, hmin⟩ | ⟨l1, l2, hsplit, huid, hult, h1, h2⟩
        · refine Or.inl ⟨rfl, ?_⟩
          intro e he hei
          rcases List.mem_cons.mp he with rfl | he1
          · omega
          · exact hmin e he1 hei
        · refine Or.inr ⟨d :: l1, l2, by simp [hsplit], huid, hult, ?_, h2⟩
          intro e he hei
          rcases List.mem_cons.mp he with rfl | he1
          · omega
          · exact h1 e he1 hei
    · have hstep : selectGo o (d :: rest) (some t) = selectGo o rest (some t) := by
        simp [selectGo, hid]
      obtain ⟨u, hu, hcase⟩ := ih t
      refine ⟨u, hstep.trans hu, ?_⟩
      rcases hcase with ⟨rfl, hmin⟩ | ⟨l1, l2, hsplit, huid, hult, h1, h2⟩
      · refine Or.inl ⟨rfl, ?_⟩
        intro e he hei
        rcases List.mem_cons.mp he with rfl | he1
        · exact absurd hei hid
        · exact hmin e he1 hei
      · refine Or.inr ⟨d :: l1, l2, by simp [hsplit], huid, hult, ?_, h2⟩
        intro e he hei
        rcases List.mem_cons.mp he with rfl | he1
        · exact absurd hei hid
        · exact h1 e he1 hei

/-- A failed request_driver scan means no driver in the list is idle. -/
lemma selectGo_none_none (o : Location) :
    ∀ l : List Driver, selectGo o l none = none → ∀ d ∈ l, d.is_idle = false := by
  intro l
  induction l with
  | nil => simp
  | cons d rest ih =>
    intro h e he
    by_cases hid : d.is_idle = true
    · exfalso
      have hstep : selectGo o (d :: rest) none = selectGo o rest (some d) := by
        simp [selectGo, hid]
      obtain ⟨u, hu, _⟩ := selectGo_some_spec o rest d
      rw [hstep, hu] at h
      exact Option.noConfusion h
    · have hstep : selectGo o (d :: rest) none = selectGo o rest none := by
        simp [selectGo, hid]
      rcases List.mem_cons.mp he with rfl | he1
      · exact Bool.not_eq_true _ ▸ (by revert hid; cases e.is_idle <;> simp)
      · exact ih (hstep ▸ h) e he1

/-- A successful request_driver scan from the empty accumulator selects
the idle driver of minimal travel time that occurs earliest in the list:
every idle driver before it is strictly worse, every idle driver after it
is no better. -/
lemma selectGo_none_some (o : Location) :
    ∀ (l : List Driver) (u : Driver), selectGo o l none = some u →
      ∃ l1 l2, l = l1 ++ u :: l2 ∧ u.is_idle = true ∧
        (∀ e ∈ l1, e.is_idle = true → u.get_travel_time o < e.get_travel_time o) ∧
        (∀ e ∈ l2, e.is_idle = true → u.get_travel_time o ≤ e.get_travel_time o) := by
  intro l
  induction l with
  | nil => intro u h; exact Option.noConfusion h
  | cons d rest ih =>
    intro u h
    by_cases hid : d.is_idle = true
    · have hstep : selectGo o (d :: rest) none = selectGo o rest (some d) := by
        simp [selectGo, hid]
      obtain ⟨u1, hu1, hcase⟩ := selectGo_some_spec o rest d
      rw [hstep, hu1] at h
      obtain rfl : u1 = u := Option.some_injective _ h
      rcases hcase with ⟨rfl, hmin⟩ | ⟨l1, l2, hsplit, huid, hult, h1, h2⟩
      · exact ⟨[], rest, rfl, hid, by simp, hmin⟩
      · refine ⟨d :: l1, l2, by simp [hsplit], huid, ?_, h2⟩
        intro e he hei
        rcases List.mem_cons.mp he with rfl | he1
        · exact hult
        · exact h1 e he1 hei
    · have hstep : selectGo o (d :: rest) none = selectGo o rest none := by
        simp [selectGo, hid]
      obtain ⟨l1, l2, hsplit, huid, h1, h2⟩ := ih u (hstep ▸ h)
      refine ⟨d :: l1, l2, by simp [hsplit], huid, ?_, h2⟩
      intro e he hei
      rcases List.mem_cons.mp he with rfl | he1
      · exact absurd hei hid
      · exact h1 e he1 hei

/-- Replacing the first occurrence of a value absent from the prefix. -/
lemma replaceFirst_append [DecidableEq α] (l1 l2 : List α) (a b : α)
    (h : ∀ e ∈ l1, e ≠ a) : replaceFirst (l1 ++ a :: l2) a b = l1 ++ b :: l2 := by
  induction l1 with
  | nil => simp [replaceFirst]
  | cons x xs ih =>
    have hx : x ≠ a := h x (List.mem_cons_self x xs)
    simp only [List.cons_append, replaceFirst, if_neg hx, List.append_eq]
    rw [ih (fun e he => h e (List.mem_cons_of_mem x he))]

/-- C1: request_driver returns a driver exactly when some registered
driver is idle; the returned driver is the idle one of minimal travel
time to the rider's origin, the earliest-registered on ties (idle drivers
before it are strictly worse, idle drivers after it no better), and it is
marked busy with destination the rider's origin, both in the returned
value and in the registered list.  Otherwise the rider is appended at the
tail of the waiting queue and the drivers are untouched; so exactly one
of assignment and enqueueing happens, and an assigned driver was idle at
call time. -/
theorem request_driver_correct (disp : Dispatcher) (r : Rider) :
    (((disp.request_driver r).1.isSome = true) ↔ ∃ d ∈ disp.drivers, d.is_idle = true) ∧
    ((disp.request_driver r).1 = none →
      (disp.request_driver r).2.drivers = disp.drivers ∧
      (disp.request_driver r).2.waiting = disp.waiting ++ [r]) ∧
    (∀ d1, (disp.request_driver r).1 = some d1 →
      (disp.request_driver r).2.waiting = disp.waiting ∧
      d1.is_idle = false ∧ d1.destination = some r.origin ∧
      ∃ d0 l1 l2, disp.drivers = l1 ++ d0 :: l2 ∧ d0.is_idle = true ∧
        d1 = { d0 with is_idle := false, destination := some r.origin } ∧
        (disp.request_driver r).2.drivers = l1 ++ d1 :: l2 ∧
        (∀ e ∈ l1, e.is_idle = true →
          d0.get_travel_time r.origin < e.get_travel_time r.origin) ∧
        (∀ e ∈ l2, e.is_idle = true →
          d0.get_travel_time r.origin ≤ e.get_travel_time r.origin)) := by
  by_cases hemp : disp.drivers = []
  · simp [Dispatcher.request_driver, hemp]
  · rcases hsel : selectGo r.origin disp.drivers none with _ | u
    · have hall := selectGo_none_none r.origin disp.drivers hsel
      simp only [Dispatcher.request_driver, if_neg hemp, hsel]
      refine ⟨?_, fun _ => ⟨by simp, by simp⟩, fun d1 h => Option.noConfusion h⟩
      simp only [Option.isSome_none, Bool.false_eq_true, false_iff]
      rintro ⟨d, hd, hidle⟩
      rw [hall d hd] at hidle
      exact Bool.noConfusion hidle
    · obtain ⟨l1, l2, hsplit, huid, h1, h2⟩ := selectGo_none_some r.origin disp.drivers u hsel
      have hne : ∀ e ∈ l1, e ≠ u := by
        intro e he heq
        subst heq
        exact absurd (h1 e he huid) (lt_irrefl _)
      have hrep : replaceFirst disp.drivers u
          { u with is_idle := false, destination := some r.origin }
          = l1 ++ { u with is_idle := false, destination := some r.origin } :: l2 := by
        rw [hsplit]
        exact replaceFirst_append l1 l2 u _ hne
      simp only [Dispatcher.request_driver, if_neg hemp, hsel]
      refine ⟨?_, fun h => Option.noConfusion h, fun d1 h => ?_⟩
      · simp only [Option.isSome_some, true_iff]
        exact ⟨u, by rw [hsplit]; simp, huid⟩
      · obtain rfl : ({ u with is_idle := false, destination := some r.origin } : Driver) = d1 :=
          Option.some_injective _ h
        exact ⟨by simp, rfl, rfl, u, l1, l2, hsplit, huid, rfl, by simpa using hrep, h1, h2⟩

/-- C1 witness: a dispatcher with one idle driver at distance 6 and one
busy driver assigns the idle one to the rider. -/
theorem request_driver_correct_witness :
    ((Dispatcher.mk [⟨"A", ⟨0, 0⟩, 1, false, some ⟨5, 5⟩⟩, ⟨"B", ⟨1, 1⟩, 1, true, none⟩] []).request_driver
        (Rider.make "R" 7 ⟨2, 2⟩ ⟨6, 6⟩)).1.isSome = true :=
  (request_driver_correct
      (Dispatcher.mk [⟨"A", ⟨0, 0⟩, 1, false, some ⟨5, 5⟩⟩, ⟨"B", ⟨1, 1⟩, 1, true, none⟩] [])
      (Rider.make "R" 7 ⟨2, 2⟩ ⟨6, 6⟩)).1.mpr
    ⟨⟨"B", ⟨1, 1⟩, 1, true, none⟩, by simp, rfl⟩

/-- Number of registered drivers carrying a given id. -/
def countId (ds : List Driver) (i : String) : Nat :=
  ds.countP (fun d => decide (d.id = i))

/-- The python membership scan of request_rider agrees with countId. -/
lemma any_id_iff (ds : List Driver) (i : String) :
    (ds.any (fun u => u.id == i) = true) ↔ 0 < countId ds i := by
  rw [List.any_eq_true, countId, List.countP_pos]
  simp [beq_iff_eq]

/-- Registration never occurs for an already-registered id and always
occurs for a fresh one, so one request_rider call leaves exactly
max(previous count, 1) registered drivers with the caller's id. -/
lemma countId_request_rider (disp : Dispatcher) (e : Driver) :
    countId (disp.request_rider e).2.2.drivers e.id
      = max (countId disp.drivers e.id) 1 := by
  have hsingle : ∀ x : Driver, x.id = e.id →
      countId (disp.drivers ++ [x]) e.id = countId disp.drivers e.id + 1 := by
    intro x hx
    simp [countId, List.countP_append, List.countP_cons, hx]
  rcases hq : disp.waiting with _ | ⟨r, rest⟩
  · simp only [Dispatcher.request_rider, hq]
    by_cases hany : disp.drivers.any (fun u => u.id == e.id) = true
    · have hpos := (any_id_iff disp.drivers e.id).mp hany
      simp [hany]
      omega
    · have hzero : countId disp.drivers e.id = 0 := by
        by_contra hne
        exact hany ((any_id_iff disp.drivers e.id).mpr (by omega))
      simp only [hany, Bool.false_eq_true, if_false]
      rw [hsingle e rfl]
      omega
  · simp only [Dispatcher.request_rider, hq]
    by_cases hany : disp.drivers.any (fun u => u.id == e.id) = true
    · have hpos := (any_id_iff disp.drivers e.id).mp hany
      simp [hany]
      omega
    · have hzero : countId disp.drivers e.id = 0 := by
        by_contra hne
        exact hany ((any_id_iff disp.drivers e.id).mpr (by omega))
      simp only [hany, Bool.false_eq_true, if_false]
      rw [hsingle { e with is_idle := false, destination := some r.origin } rfl]
      omega

/-- The registered list after request_rider: unchanged when the caller's
id is present, else the call's driver object appended. -/
lemma request_rider_drivers (disp : Dispatcher) (e : Driver) :
    (disp.request_rider e).2.2.drivers
      = if 0 < countId disp.drivers e.id then disp.drivers
        else disp.drivers ++ [(disp.request_rider e).2.1] := by
  rcases hq : disp.waiting with _ | ⟨r, rest⟩ <;>
    simp only [Dispatcher.request_rider, hq] <;>
    by_cases hany : disp.drivers.any (fun u => u.id == e.id) = true
  · rw [if_pos ((any_id_iff disp.drivers e.id).mp hany)]
    simp [hany]
  · rw [if_neg (fun hpos => hany ((any_id_iff disp.drivers e.id).mpr hpos))]
    simp [hany]
  · rw [if_pos ((any_id_iff disp.drivers e.id).mp hany)]
    simp [hany]
  · rw [if_neg (fun hpos => hany ((any_id_iff disp.drivers e.id).mpr hpos))]
    simp [hany]

/-- C6: request_rider pops the head of a non-empty waiting queue and
sends the driver there; on an empty queue it returns nothing and leaves
the driver untouched; in both cases the driver is appended to the
registered collection exactly when no registered driver carries its id,
so repeating the call with the same id never duplicates a registration;
with two queued riders one call matches only the earlier one. -/
theorem request_rider_correct (disp : Dispatcher) (dr : Driver) :
    (disp.waiting = [] →
      (disp.request_rider dr).1 = none ∧
      (disp.request_rider dr).2.1 = dr ∧
      (disp.request_rider dr).2.2.waiting = []) ∧
    (∀ r rest, disp.waiting = r :: rest →
      (disp.request_rider dr).1 = some r ∧
      (disp.request_rider dr).2.1
        = { dr with is_idle := false, destination := some r.origin } ∧
      (disp.request_rider dr).2.2.waiting = rest) ∧
    ((disp.request_rider dr).2.2.drivers
      = if 0 < countId disp.drivers dr.id then disp.drivers
        else disp.drivers ++ [(disp.request_rider dr).2.1]) ∧
    (countId (disp.request_rider dr).2.2.drivers dr.id
      = max (countId disp.drivers dr.id) 1) ∧
    (∀ e : Driver, e.id = dr.id →
      countId ((disp.request_rider dr).2.2.request_rider e).2.2.drivers dr.id
        = max (countId disp.drivers dr.id) 1) ∧
    (∀ r1 r2, disp.waiting = [r1, r2] →
      (disp.request_rider dr).1 = some r1 ∧
      (disp.request_rider dr).2.2.waiting = [r2]) := by
  refine ⟨?_, ?_, request_rider_drivers disp dr, countId_request_rider disp dr, ?_, ?_⟩
  · intro hq
    simp [Dispatcher.request_rider, hq]
  · intro r rest hq
    simp [Dispatcher.request_rider, hq, removeFirstP]
  · intro e he
    have h2 := countId_request_rider (disp.request_rider dr).2.2 e
    rw [he] at h2
    rw [h2, countId_request_rider disp dr]
    omega
  · intro r1 r2 hq
    simp [Dispatcher.request_rider, hq, removeFirstP]

/-- C6 witness: with two queued riders and an unregistered driver, the
call matches the first rider, leaves the second queued, and registers the
driver once. -/
theorem request_rider_correct_witness :
    ((Dispatcher.mk [] [Rider.make "R1" 5 ⟨0, 0⟩ ⟨1, 1⟩, Rider.make "R2" 5 ⟨2, 2⟩ ⟨3, 3⟩]).request_rider
        (Driver.make "B" ⟨4, 4⟩ 2)).1 = some (Rider.make "R1" 5 ⟨0, 0⟩ ⟨1, 1⟩) ∧
    ((Dispatcher.mk [] [Rider.make "R1" 5 ⟨0, 0⟩ ⟨1, 1⟩, Rider.make "R2" 5 ⟨2, 2⟩ ⟨3, 3⟩]).request_rider
        (Driver.make "B" ⟨4, 4⟩ 2)).2.2.waiting = [Rider.make "R2" 5 ⟨2, 2⟩ ⟨3, 3⟩] :=
  (request_rider_correct
      (Dispatcher.mk [] [Rider.make "R1" 5 ⟨0, 0⟩ ⟨1, 1⟩, Rider.make "R2" 5 ⟨2, 2⟩ ⟨3, 3⟩])
      (Driver.make "B" ⟨4, 4⟩ 2)).2.2.2.2.2
    (Rider.make "R1" 5 ⟨0, 0⟩ ⟨1, 1⟩) (Rider.make "R2" 5 ⟨2, 2⟩ ⟨3, 3⟩) rfl

/-- The driver status invariant: idle exactly when no destination. -/
def DriverInv (d : Driver) : Prop := d.is_idle = true ↔ d.destination = none

/-- An element of replaceFirst is the replacement or an original element. -/
lemma mem_replaceFirst [DecidableEq α] : ∀ (l : List α) (a b x : α),
    x ∈ replaceFirst l a b → x = b ∨ x ∈ l
  | [], _, _, x => fun h => absurd h (List.not_mem_nil x)
  | y :: ys, a, b, x => fun h => by
    by_cases hy : y = a
    · rw [replaceFirst, if_pos hy] at h
      rcases List.mem_cons.mp h with rfl | hx
      · exact Or.inl rfl
      · exact Or.inr (List.mem_cons_of_mem y hx)
    · rw [replaceFirst, if_neg hy] at h
      rcases List.mem_cons.mp h with rfl | hx
      · exact Or.inr (List.mem_cons_self _ _)
      · rcases mem_replaceFirst ys a b x hx with hb | hmem
        · exact Or.inl hb
        · exact Or.inr (List.mem_cons_of_mem y hmem)

/-- C4: a driver is idle exactly when its destination is empty: the
invariant holds at construction and is preserved by every Driver
operation and by every Dispatcher operation. -/
theorem driver_idle_iff_no_destination :
    (∀ (i : String) (loc : Location) (sp : Nat), DriverInv (Driver.make i loc sp)) ∧
    (∀ (d : Driver) (loc : Location), DriverInv (d.start_drive loc).1) ∧
    (∀ d : Driver, DriverInv d.end_drive) ∧
    (∀ (d : Driver) (r : Rider), DriverInv (d.start_ride r).1) ∧
    (∀ d : Driver, DriverInv d.end_ride) ∧
    (∀ (disp : Dispatcher) (r : Rider), (∀ d ∈ disp.drivers, DriverInv d) →
      (∀ d1, (disp.request_driver r).1 = some d1 → DriverInv d1) ∧
      (∀ d ∈ (disp.request_driver r).2.drivers, DriverInv d)) ∧
    (∀ (disp : Dispatcher) (dr : Driver), DriverInv dr →
      (∀ d ∈ disp.drivers, DriverInv d) →
      DriverInv (disp.request_rider dr).2.1 ∧
      (∀ d ∈ (disp.request_rider dr).2.2.drivers, DriverInv d)) ∧
    (∀ (disp : Dispatcher) (r : Rider), (disp.cancel_ride r).drivers = disp.drivers) := by
  refine ⟨fun i loc sp => by simp [Driver.make, DriverInv],
    fun d loc => by simp [Driver.start_drive, DriverInv],
    fun d => by simp [Driver.end_drive, DriverInv],
    fun d r => by simp [Driver.start_ride, DriverInv],
    fun d => by simp [Driver.end_ride, DriverInv],
    fun disp r hall => ?_, fun disp dr hdr hall => ?_, fun disp r => rfl⟩
  · by_cases hemp : disp.drivers = []
    · have hre : disp.request_driver r
          = (none, { disp with waiting := disp.waiting ++ [r] }) := by
        simp [Dispatcher.request_driver, hemp]
      rw [hre]
      refine ⟨fun d1 h => Option.noConfusion h, fun d hd => hall d ?_⟩
      simpa using hd
    · rcases hsel : selectGo r.origin disp.drivers none with _ | u
      · have hre : disp.request_driver r
            = (none, { disp with waiting := disp.waiting ++ [r] }) := by
          simp [Dispatcher.request_driver, hemp, hsel]
        rw [hre]
        refine ⟨fun d1 h => Option.noConfusion h, fun d hd => hall d ?_⟩
        simpa using hd
      · have hre1 : (disp.request_driver r).1
            = some { u with is_idle := false, destination := some r.origin } := by
          simp [Dispatcher.request_driver, hemp, hsel]
        have hre2 : (disp.request_driver r).2.drivers
            = replaceFirst disp.drivers u
                { u with is_idle := false, destination := some r.origin } := by
          simp [Dispatcher.request_driver, hemp, hsel]
        constructor
        · intro d1 h
          rw [hre1] at h
          obtain rfl : ({ u with is_idle := false, destination := some r.origin } : Driver) = d1 :=
            Option.some_injective _ h
          simp [DriverInv]
        · intro d hd
          rw [hre2] at hd
          rcases mem_replaceFirst disp.drivers u _ d hd with rfl | hmem
          · simp [DriverInv]
          · exact hall d hmem
  · rcases hq : disp.waiting with _ | ⟨r0, rest⟩
    · refine ⟨?_, ?_⟩ <;> simp only [Dispatcher.request_rider, hq]
      · exact hdr
      · intro d hd
        by_cases hany : disp.drivers.any (fun u => u.id == dr.id) = true
        · simp only [hany, if_true] at hd
          exact hall d hd
        · simp only [hany, Bool.false_eq_true, if_false] at hd
          rcases List.mem_append.mp hd with hmem | hsing
          · exact hall d hmem
          · rw [List.mem_singleton.mp hsing]
            exact hdr
    · refine ⟨?_, ?_⟩ <;> simp only [Dispatcher.request_rider, hq]
      · simp [DriverInv]
      · intro d hd
        by_cases hany : disp.drivers.any (fun u => u.id == dr.id) = true
        · simp only [hany, if_true] at hd
          exact hall d hd
        · simp only [hany, Bool.false_eq_true, if_false] at hd
          rcases List.mem_append.mp hd with hmem | hsing
          · exact hall d hmem
          · rw [List.mem_singleton.mp hsing]
            simp [DriverInv]

/-- C4 witness: the invariant after a request_rider call on a concrete
dispatcher holding one invariant-satisfying driver. -/
theorem driver_idle_iff_no_destination_witness :
    DriverInv ((Dispatcher.mk [Driver.make "A" ⟨0, 0⟩ 1] []).request_rider
      (Driver.make "B" ⟨1, 1⟩ 1)).2.1 :=
  (driver_idle_iff_no_destination.2.2.2.2.2.2.1
      (Dispatcher.mk [Driver.make "A" ⟨0, 0⟩ 1] []) (Driver.make "B" ⟨1, 1⟩ 1)
      (by simp [DriverInv, Driver.make])
      (by intro d hd; rw [List.mem_singleton.mp hd]; simp [DriverInv, Driver.make])).1

/-- Dereferencing after a mutation of the same rider id.  The mutation
only needs to preserve the id of riders that carry the mutated id. -/
lemma findRider_update_self (rs : List Rider) (rid : String) (f : Rider → Rider)
    (hf : ∀ r : Rider, r.id = rid → (f r).id = r.id) :
    findRider (updateRider rs rid f) rid = (findRider rs rid).map f := by
  induction rs with
  | nil => rfl
  | cons r rest ih =>
    by_cases h : r.id = rid
    · simp [findRider, updateRider, h, hf r h]
    · simp only [findRider, updateRider, List.map_cons, if_neg h] at ih ⊢
      rw [List.find?_cons_of_neg, List.find?_cons_of_neg, ih]
      · simp [h]
      · simp [h]

/-- Dereferencing another rider id after a mutation. -/
lemma findRider_update_ne (rs : List Rider) (rid j : String) (f : Rider → Rider)
    (hf : ∀ r : Rider, r.id = rid → (f r).id = r.id) (hne : j ≠ rid) :
    findRider (updateRider rs rid f) j = findRider rs j := by
  induction rs with
  | nil => rfl
  | cons r rest ih =>
    by_cases h : r.id = rid
    · simp only [findRider, updateRider, List.map_cons, if_pos h] at ih ⊢
      rw [List.find?_cons_of_neg, List.find?_cons_of_neg, ih]
      · simp only [decide_eq_true_eq, h]
        exact fun hx => hne hx.symm
      · simp only [decide_eq_true_eq, hf r h, h]
        exact fun hx => hne hx.symm
    · simp only [findRider, updateRider, List.map_cons, if_neg h] at ih ⊢
      by_cases hj : r.id = j
      · rw [List.find?_cons_of_pos, List.find?_cons_of_pos] <;> simp [hj]
      · rw [List.find?_cons_of_neg, List.find?_cons_of_neg, ih] <;> simp [hj]

/-- Dereferencing after a mutation of the same driver id. -/
lemma findDriver_update_self (ds : List Driver) (did : String) (f : Driver → Driver)
    (hf : ∀ d : Driver, d.id = did → (f d).id = d.id) :
    findDriver (updateDriver ds did f) did = (findDriver ds did).map f := by
  induction ds with
  | nil => rfl
  | cons d rest ih =>
    by_cases h : d.id = did
    · simp [findDriver, updateDriver, h, hf d h]
    · simp only [findDriver, updateDriver, List.map_cons, if_neg h] at ih ⊢
      rw [List.find?_cons_of_neg, List.find?_cons_of_neg, ih]
      · simp [h]
      · simp [h]

/-- Dereferencing another driver id after a mutation. -/
lemma findDriver_update_ne (ds : List Driver) (did j : String) (f : Driver → Driver)
    (hf : ∀ d : Driver, d.id = did → (f d).id = d.id) (hne : j ≠ did) :
    findDriver (updateDriver ds did f) j = findDriver ds j := by
  induction ds with
  | nil => rfl
  | cons d rest ih =>
    by_cases h : d.id = did
    · simp only [findDriver, updateDriver, List.map_cons, if_pos h] at ih ⊢
      rw [List.find?_cons_of_neg, List.find?_cons_of_neg, ih]
      · simp only [decide_eq_true_eq, h]
        exact fun hx => hne hx.symm
      · simp only [decide_eq_true_eq, hf d h, h]
        exact fun hx => hne hx.symm
    · simp only [findDriver, updateDriver, List.map_cons, if_neg h] at ih ⊢
      by_cases hj : d.id = j
      · rw [List.find?_cons_of_pos, List.find?_cons_of_pos] <;> simp [hj]
      · rw [List.find?_cons_of_neg, List.find?_cons_of_neg, ih] <;> simp [hj]

/-- The two outcomes of the dispatcher's driver search at world level:
either nothing is idle and the rider id joins the tail of the queue,
everything else untouched, or an idle registered driver is selected and
mutated toward the rider's origin. -/
lemma requestDriverW_cases (w : World) (rider : Rider) :
    ((requestDriverW w rider).1 = none ∧
      (requestDriverW w rider).2.waitingQ = w.waitingQ ++ [rider.id] ∧
      (requestDriverW w rider).2.riders = w.riders ∧
      (requestDriverW w rider).2.drivers = w.drivers ∧
      (requestDriverW w rider).2.registered = w.registered) ∨
    (∃ d0 : Driver, (requestDriverW w rider).1 = some d0.id ∧ d0.is_idle = true ∧
      findDriver w.drivers d0.id = some d0 ∧
      (requestDriverW w rider).2.drivers = updateDriver w.drivers d0.id
        (fun x => { x with is_idle := false, destination := some rider.origin }) ∧
      (requestDriverW w rider).2.riders = w.riders ∧
      (requestDriverW w rider).2.waitingQ = w.waitingQ ∧
      (requestDriverW w rider).2.registered = w.registered) := by
  by_cases hreg : w.registered = []
  · exact Or.inl (by refine ⟨?_, ?_, ?_, ?_, ?_⟩ <;> simp [requestDriverW, hreg])
  · rcases hsel : selectGo rider.origin (w.registered.filterMap (findDriver w.drivers)) none
        with _ | u
    · exact Or.inl (by refine ⟨?_, ?_, ?_, ?_, ?_⟩ <;> simp [requestDriverW, hreg, hsel])
    · obtain ⟨l1, l2, hsplit, huid, _, _⟩ :=
        selectGo_none_some rider.origin (w.registered.filterMap (findDriver w.drivers)) u hsel

      have humem : u ∈ w.registered.filterMap (findDriver w.drivers) := by
        rw [hsplit]; simp
      obtain ⟨did, _, hfindu⟩ := List.mem_filterMap.mp humem
      have hid : u.id = did := by
        have := List.find?_some hfindu
        exact of_decide_eq_true this
      refine Or.inr ⟨u, ?_, huid, ?_, ?_, ?_, ?_, ?_⟩ <;>
        first
          | (rw [hid]; exact hfindu)
          | simp [requestDriverW, hreg, hsel]

/-- C5: executing a RiderRequest always returns a Cancellation at the
request time plus the rider's patience; when a driver is matched the
returned list additionally holds exactly one Pickup scheduled after that
driver's travel time to the rider's origin and the driver becomes busy
toward the rider's origin; otherwise the Cancellation is the only
returned event. -/
theorem rider_request_schedules_cancellation (w : World) (t : Nat) (rid : String)
    (rider : Rider) (h : findRider w.riders rid = some rider) :
    Event.cancellation (t + rider.patience) rid ∈ (doEvent w (Event.riderRequest t rid)).2 ∧
    ((doEvent w (Event.riderRequest t rid)).2
        = [Event.cancellation (t + rider.patience) rid] ∨
      ∃ did d0, findDriver w.drivers did = some d0 ∧ d0.is_idle = true ∧
        (doEvent w (Event.riderRequest t rid)).2
          = [Event.pickup (t + d0.get_travel_time rider.origin) rid did,
             Event.cancellation (t + rider.patience) rid] ∧
        findDriver (doEvent w (Event.riderRequest t rid)).1.drivers did
          = some { d0 with is_idle := false, destination := some rider.origin }) := by
  have hmain : (doEvent w (Event.riderRequest t rid)).2
        = [Event.cancellation (t + rider.patience) rid] ∨
      ∃ did d0, findDriver w.drivers did = some d0 ∧ d0.is_idle = true ∧
        (doEvent w (Event.riderRequest t rid)).2
          = [Event.pickup (t + d0.get_travel_time rider.origin) rid did,
             Event.cancellation (t + rider.patience) rid] ∧
        findDriver (doEvent w (Event.riderRequest t rid)).1.drivers did
          = some { d0 with is_idle := false, destination := some rider.origin } := by
    rcases requestDriverW_cases w rider with ⟨h1, _, _, _, _⟩ |
        ⟨d0, h1, hidle, hfind, hdrv, _, _, _⟩
    · left
      simp only [doEvent, doRiderRequest, h, h1]
    · right
      have hfound : findDriver (requestDriverW w rider).2.drivers d0.id
          = some { d0 with is_idle := false, destination := some rider.origin } := by
        rw [hdrv, findDriver_update_self w.drivers d0.id
          (fun x => { x with is_idle := false, destination := some rider.origin })
          (fun x _ => rfl), hfind]
        rfl
      refine ⟨d0.id, d0, hfind, hidle, ?_, ?_⟩
      · simp only [doEvent, doRiderRequest, h, h1, hfound]
        rfl
      · simp only [doEvent, doRiderRequest, h, h1, hfound]
        rw [findDriver_update_self (requestDriverW w rider).2.drivers d0.id
          (fun _ => (Driver.start_drive
            { d0 with is_idle := false, destination := some rider.origin } rider.origin).1)
          (fun x hx => hx.symm), hfound]
        rfl
  refine ⟨?_, hmain⟩
  rcases hmain with he | ⟨did, d0, _, _, he, _⟩ <;> rw [he] <;> simp

/-- The end-to-end scenario world: driver D0 at (3,5) with speed 3,
registered and idle; rider R0 with patience 10 from (7,7) to (20,2). -/
def w7 : World :=
  ⟨[⟨"R0", 10, ⟨7, 7⟩, ⟨20, 2⟩, RiderStatus.waiting⟩],
   [⟨"D0", ⟨3, 5⟩, 3, true, none⟩], [], ["D0"]⟩

/-- C5 witness: the rider request of the end-to-end world returns the
cancellation at the patience deadline. -/
theorem rider_request_schedules_cancellation_witness :
    Event.cancellation (0 + 10) "R0" ∈ (doEvent w7 (Event.riderRequest 0 "R0")).2 :=
  (rider_request_schedules_cancellation w7 0 "R0"
    ⟨"R0", 10, ⟨7, 7⟩, ⟨20, 2⟩, RiderStatus.waiting⟩ (by decide)).1

/-- C7: the full concrete scenario: the request at time 0 matches D0
(distance 6, travel 2) and returns a Pickup at 2 and a Cancellation at
10; the pickup at 2 satisfies R0 and returns a Dropoff at 8 (distance 18,
travel 6); the cancellation at 10 is then a no-op returning nothing. -/
theorem end_to_end_scenario :
    manhattan_distance ⟨3, 5⟩ ⟨7, 7⟩ = 6 ∧
    manhattan_distance ⟨7, 7⟩ ⟨20, 2⟩ = 18 ∧
    (doEvent w7 (Event.riderRequest 0 "R0")).2
      = [Event.pickup 2 "R0" "D0", Event.cancellation 10 "R0"] ∧
    findDriver (doEvent w7 (Event.riderRequest 0 "R0")).1.drivers "D0"
      = some ⟨"D0", ⟨3, 5⟩, 3, false, some ⟨7, 7⟩⟩ ∧
    (doEvent (doEvent w7 (Event.riderRequest 0 "R0")).1 (Event.pickup 2 "R0" "D0")).2
      = [Event.dropoff 8 "R0" "D0"] ∧
    riderStatus (doEvent (doEvent w7 (Event.riderRequest 0 "R0")).1
        (Event.pickup 2 "R0" "D0")).1 "R0" = some RiderStatus.satisfied ∧
    doEvent (doEvent (doEvent w7 (Event.riderRequest 0 "R0")).1
        (Event.pickup 2 "R0" "D0")).1 (Event.cancellation 10 "R0")
      = ((doEvent (doEvent w7 (Event.riderRequest 0 "R0")).1
          (Event.pickup 2 "R0" "D0")).1, []) := by
  decide

/-- The C2 counterexample world: a pickup whose driver's stored
destination (0,0) differs from the waiting rider's origin (1,1). -/
def wMismatch : World :=
  ⟨[⟨"r", 5, ⟨1, 1⟩, ⟨2, 2⟩, RiderStatus.waiting⟩],
   [⟨"d", ⟨5, 5⟩, 1, false, some ⟨0, 0⟩⟩], [], ["d"]⟩

/-- C2 counterexample: on the waiting branch the driver's final location
is the rider's origin, not the driver's destination at call time: with
destination (0,0) set and the rider waiting at origin (1,1), after the
pickup the driver is at (1,1), differing from (0,0). -/
theorem pickup_location_counterexample :
    (findRider wMismatch.riders "r").map Rider.status = some RiderStatus.waiting ∧
    (findDriver wMismatch.drivers "d").bind Driver.destination = some ⟨0, 0⟩ ∧
    (findDriver (doEvent wMismatch (Event.pickup 3 "r" "d")).1.drivers "d").map
        Driver.location = some ⟨1, 1⟩ ∧
    ¬ (findDriver (doEvent wMismatch (Event.pickup 3 "r" "d")).1.drivers "d").map
        Driver.location = (findDriver wMismatch.drivers "d").bind Driver.destination := by
  decide

/-- C2 (amended): executing a Pickup whose driver has a destination set:
on a waiting rider the driver is first moved to its stored destination
and then placed at the rider's origin (the two coincide whenever the
pickup was scheduled by a match), the rider becomes satisfied, the driver
becomes busy toward the rider's destination, and exactly one Dropoff
after the ride's travel time is returned; on a cancelled rider the driver
arrives at its stored destination, becomes idle with the destination
cleared, and exactly one DriverRequest at the same timestamp is returned;
on a satisfied rider nothing changes and nothing is returned.  No branch
fails. -/
theorem pickup_branches (w : World) (t : Nat) (rid did : String)
    (rider : Rider) (driver : Driver) (dest : Location)
    (hr : findRider w.riders rid = some rider)
    (hd : findDriver w.drivers did = some driver)
    (hdest : driver.destination = some dest) :
    (rider.status = RiderStatus.waiting →
      (doEvent w (Event.pickup t rid did)).2
        = [Event.dropoff
            (t + roundHalfEven (manhattan_distance rider.origin rider.dest) driver.speed)
            rid did] ∧
      findRider (doEvent w (Event.pickup t rid did)).1.riders rid
        = some { rider with status := RiderStatus.satisfied } ∧
      findDriver (doEvent w (Event.pickup t rid did)).1.drivers did
        = some { driver with location := rider.origin,
                             destination := some rider.dest, is_idle := false }) ∧
    (rider.status = RiderStatus.cancelled →
      (doEvent w (Event.pickup t rid did)).2 = [Event.driverRequest t did] ∧
      findDriver (doEvent w (Event.pickup t rid did)).1.drivers did
        = some { driver with location := dest, destination := none, is_idle := true } ∧
      findRider (doEvent w (Event.pickup t rid did)).1.riders rid = some rider) ∧
    (rider.status = RiderStatus.satisfied →
      doEvent w (Event.pickup t rid did) = (w, [])) := by
  have hdid : driver.id = did := by
    have h2 := List.find?_some hd
    exact of_decide_eq_true h2
  refine ⟨fun hs => ?_, fun hs => ?_, fun hs => ?_⟩
  · simp only [doEvent, doPickup, hr, hd, hs, reduceIte]
    refine ⟨rfl, ?_, ?_⟩
    · rw [findRider_update_self w.riders rid
        (fun r => { r with status := RiderStatus.satisfied }) (fun x _ => rfl), hr]
      rfl
    · rw [findDriver_update_self (updateDriver w.drivers did (fun _ => driver.end_drive)) did
          (fun _ => (driver.end_drive.start_ride rider).1)
          (fun x hx => (hdid.trans hx.symm :
            ((driver.end_drive.start_ride rider).1.id = x.id))),
        findDriver_update_self w.drivers did (fun _ => driver.end_drive)
          (fun x hx => (hdid.trans hx.symm : (driver.end_drive.id = x.id))), hd]
      rfl
  · simp only [doEvent, doPickup, hr, hd, hs]
    rw [if_neg (fun hcc => RiderStatus.noConfusion hcc), if_pos trivial]
    refine ⟨rfl, ?_, hr⟩
    rw [findDriver_update_self w.drivers did (fun _ => driver.end_drive)
        (fun x hx => (hdid.trans hx.symm : (driver.end_drive.id = x.id))), hd]
    simp [Driver.end_drive, hdest]
  · simp only [doEvent, doPickup, hr, hd, hs]
    rw [if_neg (fun hcc => RiderStatus.noConfusion hcc),
      if_neg (fun hcc => RiderStatus.noConfusion hcc)]

/-- C2 witness: the amended waiting branch on the counterexample world:
the pickup returns a single Dropoff at time 3 + 2. -/
theorem pickup_branches_witness :
    (doEvent wMismatch (Event.pickup 3 "r" "d")).2
      = [Event.dropoff (3 + roundHalfEven (manhattan_distance ⟨1, 1⟩ ⟨2, 2⟩) 1) "r" "d"] :=
  ((pickup_branches wMismatch 3 "r" "d"
      ⟨"r", 5, ⟨1, 1⟩, ⟨2, 2⟩, RiderStatus.waiting⟩
      ⟨"d", ⟨5, 5⟩, 1, false, some ⟨0, 0⟩⟩ ⟨0, 0⟩
      (by decide) (by decide) (by decide)).1 rfl).1

/-- registerDriver only touches the registered list. -/
lemma registerDriver_riders (w : World) (did : String) :
    (registerDriver w did).riders = w.riders := by
  unfold registerDriver; split <;> rfl

/-- registerDriver keeps the driver store. -/
lemma registerDriver_drivers (w : World) (did : String) :
    (registerDriver w did).drivers = w.drivers := by
  unfold registerDriver; split <;> rfl

/-- registerDriver keeps the waiting queue. -/
lemma registerDriver_waitingQ (w : World) (did : String) :
    (registerDriver w did).waitingQ = w.waitingQ := by
  unfold registerDriver; split <;> rfl

/-- A rider request never touches the rider store. -/
lemma doRiderRequest_riders (w : World) (t : Nat) (rid : String) :
    (doRiderRequest w t rid).1.riders = w.riders := by
  rcases hfr : findRider w.riders rid with _ | rider
  · simp [doRiderRequest, hfr]
  · rcases requestDriverW_cases w rider with ⟨h1, _, hrr, _, _⟩ |
      ⟨d0, h1, _, _, _, hrr, _, _⟩
    · simp [doRiderRequest, hfr, h1, hrr]
    · rcases hfd : findDriver (requestDriverW w rider).2.drivers d0.id with _ | d <;>
        simp [doRiderRequest, hfr, h1, hfd, hrr]

/-- The dispatcher's rider search never touches the rider store. -/
lemma requestRiderW_riders (w : World) (did : String) :
    (requestRiderW w did).2.riders = w.riders := by
  rcases hq : w.waitingQ with _ | ⟨rid, rest⟩
  · simp [requestRiderW, hq, registerDriver_riders]
  · rcases hfr : findRider w.riders rid with _ | rider <;>
      simp [requestRiderW, hq, hfr, registerDriver_riders]

/-- A driver request never touches the rider store. -/
lemma doDriverRequest_riders (w : World) (t : Nat) (did : String) :
    (doDriverRequest w t did).1.riders = w.riders := by
  rcases hfd : findDriver w.drivers did with _ | driver
  · simp [doDriverRequest, hfd]
  · rcases h1 : (requestRiderW w did).1 with _ | rider
    · simp [doDriverRequest, hfd, h1, requestRiderW_riders]
    · rcases hfd2 : findDriver (requestRiderW w did).2.drivers did with _ | d <;>
        simp [doDriverRequest, hfd, h1, hfd2, requestRiderW_riders]

/-- A dropoff never touches the rider store. -/
lemma doDropoff_riders (w : World) (t : Nat) (rid did : String) :
    (doDropoff w t rid did).1.riders = w.riders := by
  rcases hfd : findDriver w.drivers did with _ | driver <;> simp [doDropoff, hfd]

/-- One event execution never changes a rider that has already left the
Waiting status. -/
lemma doEvent_status_frozen (w : World) (e : Event) (rid : String) (r : Rider)
    (h : findRider w.riders rid = some r) (hs : r.status ≠ RiderStatus.waiting) :
    findRider (doEvent w e).1.riders rid = some r := by
  cases e with
  | riderRequest t rid0 =>
    simp only [doEvent]
    rw [doRiderRequest_riders]
    exact h
  | driverRequest t did =>
    simp only [doEvent]
    rw [doDriverRequest_riders]
    exact h
  | dropoff t rid0 did =>
    simp only [doEvent]
    rw [doDropoff_riders]
    exact h
  | cancellation t rid0 =>
    rcases hfr : findRider w.riders rid0 with _ | r0
    · simp [doEvent, doCancellation, hfr, h]
    · by_cases hw : r0.status = RiderStatus.waiting
      · by_cases heq : rid = rid0
        · subst heq
          rw [hfr] at h
          obtain rfl : r0 = r := Option.some_injective _ h
          exact absurd hw hs
        · simp only [doEvent, doCancellation, hfr, if_pos hw]
          rw [findRider_update_ne w.riders rid0 rid
            (fun r => { r with status := RiderStatus.cancelled }) (fun x _ => rfl) heq]
          exact h
      · simp [doEvent, doCancellation, hfr, hw, h]
  | pickup t rid0 did =>
    rcases hfr : findRider w.riders rid0 with _ | r0
    · simp [doEvent, doPickup, hfr, h]
    · rcases hfd : findDriver w.drivers did with _ | d0
      · simp [doEvent, doPickup, hfr, hfd, h]
      · by_cases hw : r0.status = RiderStatus.waiting
        · by_cases heq : rid = rid0
          · subst heq
            rw [hfr] at h
            obtain rfl : r0 = r := Option.some_injective _ h
            exact absurd hw hs
          · simp only [doEvent, doPickup, hfr, hfd, if_pos hw]
            rw [findRider_update_ne w.riders rid0 rid
              (fun r => { r with status := RiderStatus.satisfied }) (fun x _ => rfl) heq]
            exact h
        · by_cases hc : r0.status = RiderStatus.cancelled <;>
            simp [doEvent, doPickup, hfr, hfd, hw, hc, h]

/-- Executing an appended list is sequential execution. -/
lemma execList_append (w : World) (es1 es2 : List Event) :
    execList w (es1 ++ es2) = execList (execList w es1) es2 := by
  induction es1 generalizing w with
  | nil => rfl
  | cons e es ih => simp [execList, ih]

/-- Any sequence of executions keeps a non-Waiting rider unchanged. -/
lemma execList_status_frozen (w : World) (es : List Event) (rid : String) (r : Rider)
    (h : findRider w.riders rid = some r) (hs : r.status ≠ RiderStatus.waiting) :
    findRider (execList w es).riders rid = some r := by
  induction es generalizing w with
  | nil => exact h
  | cons e es ih => exact ih _ (doEvent_status_frozen w e rid r h hs)

/-- One event execution moves a Waiting rider to Waiting, Cancelled or
Satisfied and keeps it in the store. -/
lemma doEvent_status_from_waiting (w : World) (e : Event) (rid : String) (r : Rider)
    (h : findRider w.riders rid = some r) (hw0 : r.status = RiderStatus.waiting) :
    riderStatus (doEvent w e).1 rid = some RiderStatus.waiting ∨
    riderStatus (doEvent w e).1 rid = some RiderStatus.cancelled ∨
    riderStatus (doEvent w e).1 rid = some RiderStatus.satisfied := by
  have hkeep : ∀ ws : World, ws.riders = w.riders →
      riderStatus ws rid = some RiderStatus.waiting := by
    intro ws hws
    rw [riderStatus, hws, h]
    simp [hw0]
  cases e with
  | riderRequest t rid0 =>
    exact Or.inl (hkeep _ (by simp only [doEvent]; exact doRiderRequest_riders w t rid0))
  | driverRequest t did =>
    exact Or.inl (hkeep _ (by simp only [doEvent]; exact doDriverRequest_riders w t did))
  | dropoff t rid0 did =>
    exact Or.inl (hkeep _ (by simp only [doEvent]; exact doDropoff_riders w t rid0 did))
  | cancellation t rid0 =>
    rcases hfr : findRider w.riders rid0 with _ | r0
    · exact Or.inl (hkeep _ (by simp [doEvent, doCancellation, hfr]))
    · by_cases hw : r0.status = RiderStatus.waiting
      · by_cases heq : rid = rid0
        · subst heq
          refine Or.inr (Or.inl ?_)
          simp only [doEvent, doCancellation, hfr, if_pos hw, riderStatus]
          rw [findRider_update_self w.riders rid
            (fun r => { r with status := RiderStatus.cancelled }) (fun x _ => rfl), h]
          rfl
        · refine Or.inl ?_
          simp only [doEvent, doCancellation, hfr, if_pos hw, riderStatus]
          rw [findRider_update_ne w.riders rid0 rid
            (fun r => { r with status := RiderStatus.cancelled }) (fun x _ => rfl) heq, h]
          simp [hw0]
      · exact Or.inl (hkeep _ (by simp [doEvent, doCancellation, hfr, hw]))
  | pickup t rid0 did =>
    rcases hfr : findRider w.riders rid0 with _ | r0
    · exact Or.inl (hkeep _ (by simp [doEvent, doPickup, hfr]))
    · rcases hfd : findDriver w.drivers did with _ | d0
      · exact Or.inl (hkeep _ (by simp [doEvent, doPickup, hfr, hfd]))
      · by_cases hw : r0.status = RiderStatus.waiting
        · by_cases heq : rid = rid0
          · subst heq
            refine Or.inr (Or.inr ?_)
            simp only [doEvent, doPickup, hfr, hfd, if_pos hw, riderStatus]
            rw [findRider_update_self w.riders rid
              (fun r => { r with status := RiderStatus.satisfied }) (fun x _ => rfl), h]
            rfl
          · refine Or.inl ?_
            simp only [doEvent, doPickup, hfr, hfd, if_pos hw, riderStatus]
            rw [findRider_update_ne w.riders rid0 rid
              (fun r => { r with status := RiderStatus.satisfied }) (fun x _ => rfl) heq, h]
            simp [hw0]
        · by_cases hc : r0.status = RiderStatus.cancelled
          · exact Or.inl (hkeep _ (by simp [doEvent, doPickup, hfr, hfd, hw, hc]))
          · exact Or.inl (hkeep _ (by simp [doEvent, doPickup, hfr, hfd, hw, hc]))

/-- C3: a rider's status changes at most once: once it has left Waiting
(to Cancelled or Satisfied), no later sequence of event executions ever
changes it again; and from Waiting a single event execution leaves it
Waiting or moves it to exactly one of Cancelled or Satisfied. -/
theorem rider_status_single_transition :
    (∀ (w : World) (rid : String) (es1 es2 : List Event) (s : RiderStatus),
      riderStatus (execList w es1) rid = some s → s ≠ RiderStatus.waiting →
      riderStatus (execList w (es1 ++ es2)) rid = some s) ∧
    (∀ (w : World) (e : Event) (rid : String) (r : Rider),
      findRider w.riders rid = some r → r.status = RiderStatus.waiting →
      riderStatus (doEvent w e).1 rid = some RiderStatus.waiting ∨
      riderStatus (doEvent w e).1 rid = some RiderStatus.cancelled ∨
      riderStatus (doEvent w e).1 rid = some RiderStatus.satisfied) := by
  refine ⟨fun w rid es1 es2 s h1 hs => ?_, doEvent_status_from_waiting⟩
  rw [execList_append]
  rcases hfr : findRider (execList w es1).riders rid with _ | r
  · rw [riderStatus, hfr] at h1
    exact Option.noConfusion h1
  · rw [riderStatus, hfr] at h1
    obtain rfl : r.status = s := Option.some_injective _ h1
    rw [riderStatus, execList_status_frozen (execList w es1) es2 rid r hfr hs]
    rfl

/-- C3 witness: executing the deadline cancellation on the scenario world
moves the waiting rider to Cancelled (the middle disjunct holds). -/
theorem rider_status_single_transition_witness :
    riderStatus (doEvent w7 (Event.cancellation 10 "R0")).1 "R0"
        = some RiderStatus.waiting ∨
    riderStatus (doEvent w7 (Event.cancellation 10 "R0")).1 "R0"
        = some RiderStatus.cancelled ∨
    riderStatus (doEvent w7 (Event.cancellation 10 "R0")).1 "R0"
        = some RiderStatus.satisfied :=
  rider_status_single_transition.2 w7 (Event.cancellation 10 "R0") "R0"
    ⟨"R0", 10, ⟨7, 7⟩, ⟨20, 2⟩, RiderStatus.waiting⟩ (by decide) rfl

/-- Removing at most one element never lengthens the list. -/
lemma removeFirstP_length_le (p : α → Prop) [DecidablePred p] (l : List α) :
    (removeFirstP p l).length ≤ l.length := by
  induction l with
  | nil => simp [removeFirstP]
  | cons x xs ih =>
    by_cases h : p x
    · simp [removeFirstP, h]
    · simp only [removeFirstP, if_neg h, List.length_cons]
      omega

/-- The cancel_ride loop never lengthens the list. -/
lemma pyCancelFuel_length_le (p : α → Prop) [DecidablePred p] :
    ∀ (fuel i : Nat) (q : List α), (pyCancelFuel p fuel i q).length ≤ q.length
  | 0, _, _ => le_refl _
  | fuel + 1, i, q => by
    unfold pyCancelFuel
    split
    · split
      · exact le_trans (pyCancelFuel_length_le p fuel (i + 1) _)
          (removeFirstP_length_le p q)
      · exact pyCancelFuel_length_le p fuel (i + 1) q
    · exact le_refl _

/-- cancelLoop never lengthens the list. -/
lemma cancelLoop_length_le (p : α → Prop) [DecidablePred p] (q : List α) :
    (cancelLoop p q).length ≤ q.length :=
  pyCancelFuel_length_le p q.length 0 q

/-- Weights are additive over concatenation. -/
lemma weightSum_append (a b : List Event) :
    weightSum (a ++ b) = weightSum a + weightSum b := by
  simp [weightSum]

/-- Every event has positive weight. -/
lemma eventWeight_pos (e : Event) : 1 ≤ eventWeight e := by
  cases e <;> simp [eventWeight]

/-- The two outcomes of the waiting-queue pop at world level. -/
lemma requestRiderW_cases (w : World) (did : String) :
    ((requestRiderW w did).1 = none ∧
      (requestRiderW w did).2.waitingQ = w.waitingQ) ∨
    (∃ rider, (requestRiderW w did).1 = some rider ∧
      (requestRiderW w did).2.waitingQ.length + 1 = w.waitingQ.length) := by
  rcases hq : w.waitingQ with _ | ⟨rid, rest⟩
  · left
    simp [requestRiderW, hq, registerDriver_waitingQ]
  · rcases hfr : findRider w.riders rid with _ | rider
    · left
      simp [requestRiderW, hq, hfr, registerDriver_waitingQ]
    · right
      refine ⟨rider, by simp [requestRiderW, hq, hfr], ?_⟩
      simp [requestRiderW, hq, hfr, registerDriver_waitingQ, removeFirstP]

/-- A rider request strictly decreases the measure against weight 5. -/
lemma doRiderRequest_measure (w : World) (t : Nat) (rid : String) :
    3 * (doRiderRequest w t rid).1.waitingQ.length
      + weightSum (doRiderRequest w t rid).2 < 3 * w.waitingQ.length + 5 := by
  rcases hfr : findRider w.riders rid with _ | rider
  · simp [doRiderRequest, hfr, weightSum]
  · rcases requestDriverW_cases w rider with ⟨h1, hq, _, _, _⟩ |
      ⟨d0, h1, _, _, _, _, hq, _⟩
    · simp only [doRiderRequest, hfr, h1, hq]
      simp [weightSum, eventWeight]
      omega
    · rcases hfd : findDriver (requestDriverW w rider).2.drivers d0.id with _ | d
      · simp only [doRiderRequest, hfr, h1, hfd, hq]
        simp [weightSum, eventWeight]
      · simp only [doRiderRequest, hfr, h1, hfd]
        simp [weightSum, eventWeight, hq]

/-- A driver request strictly decreases the measure against weight 1. -/
lemma doDriverRequest_measure (w : World) (t : Nat) (did : String) :
    3 * (doDriverRequest w t did).1.waitingQ.length
      + weightSum (doDriverRequest w t did).2 < 3 * w.waitingQ.length + 1 := by
  rcases hfd : findDriver w.drivers did with _ | driver
  · simp [doDriverRequest, hfd, weightSum]
  · rcases requestRiderW_cases w did with ⟨h1, hq⟩ | ⟨rider, h1, hq⟩
    · simp [doDriverRequest, hfd, h1, hq, weightSum]
    · rcases hfd2 : findDriver (requestRiderW w did).2.drivers did with _ | d
      · simp only [doDriverRequest, hfd, h1, hfd2]
        simp [weightSum]
        omega
      · simp only [doDriverRequest, hfd, h1, hfd2]
        simp [weightSum, eventWeight]
        omega

/-- A cancellation strictly decreases the measure against weight 1. -/
lemma doCancellation_measure (w : World) (t : Nat) (rid : String) :
    3 * (doCancellation w t rid).1.waitingQ.length
      + weightSum (doCancellation w t rid).2 < 3 * w.waitingQ.length + 1 := by
  rcases hfr : findRider w.riders rid with _ | rider
  · simp [doCancellation, hfr, weightSum]
  · by_cases hw : rider.status = RiderStatus.waiting
    · have hlen := cancelLoop_length_le (fun x => rid = x) w.waitingQ
      simp only [doCancellation, hfr, if_pos hw]
      simp [weightSum, cancelRideQ]
      omega
    · simp [doCancellation, hfr, hw, weightSum]

/-- A pickup strictly decreases the measure against weight 3. -/
lemma doPickup_measure (w : World) (t : Nat) (rid did : String) :
    3 * (doPickup w t rid did).1.waitingQ.length
      + weightSum (doPickup w t rid did).2 < 3 * w.waitingQ.length + 3 := by
  rcases hfr : findRider w.riders rid with _ | rider
  · simp [doPickup, hfr, weightSum]
  · rcases hfd : findDriver w.drivers did with _ | d0
    · simp [doPickup, hfr, hfd, weightSum]
    · by_cases hw : rider.status = RiderStatus.waiting
      · simp only [doPickup, hfr, hfd, if_pos hw]
        simp [weightSum, eventWeight]
      · by_cases hc : rider.status = RiderStatus.cancelled <;>
          simp [doPickup, hfr, hfd, hw, hc, weightSum, eventWeight]

/-- A dropoff strictly decreases the measure against weight 2. -/
lemma doDropoff_measure (w : World) (t : Nat) (rid did : String) :
    3 * (doDropoff w t rid did).1.waitingQ.length
      + weightSum (doDropoff w t rid did).2 < 3 * w.waitingQ.length + 2 := by
  rcases hfd : findDriver w.drivers did with _ | driver
  · simp [doDropoff, hfd, weightSum]
  · have hlen := cancelLoop_length_le (fun x => rid = x) w.waitingQ
    simp only [doDropoff, hfd]
    simp [weightSum, eventWeight, cancelRideQ]
    omega

/-- Every event execution strictly decreases the termination measure. -/
lemma doEvent_measure (w : World) (e : Event) :
    3 * (doEvent w e).1.waitingQ.length + weightSum (doEvent w e).2
      < 3 * w.waitingQ.length + eventWeight e := by
  cases e with
  | riderRequest t rid => exact doRiderRequest_measure w t rid
  | driverRequest t did => exact doDriverRequest_measure w t did
  | cancellation t rid => exact doCancellation_measure w t rid
  | pickup t rid did => exact doPickup_measure w t rid did
  | dropoff t rid did => exact doDropoff_measure w t rid did

/-- Extraction of the minimum preserves the total weight. -/
lemma extractMinGo_weight : ∀ (l acc : List Event) (b : Event),
    eventWeight (extractMinGo acc b l).1 + weightSum (extractMinGo acc b l).2
      = eventWeight b + weightSum acc + weightSum l := by
  intro l
  induction l with
  | nil =>
    intro acc b
    simp [extractMinGo, weightSum, List.map_reverse, List.sum_reverse]
  | cons e rest ih =>
    intro acc b
    by_cases hlt : e.timestamp < b.timestamp
    · rw [extractMinGo, if_pos hlt, ih]
      simp [weightSum]
      omega
    · rw [extractMinGo, if_neg hlt, ih]
      simp [weightSum]
      omega

/-- Enough fuel makes the run loop finish: the measure is an upper bound
on the number of executed events. -/
lemma runFuel_isSome : ∀ (fuel : Nat) (w : World) (pending : List Event),
    measureW w pending ≤ fuel → (runFuel fuel w pending).isSome = true := by
  intro fuel
  induction fuel with
  | zero =>
    intro w pending h
    rcases pending with _ | ⟨e, rest⟩
    · simp [runFuel]
    · exfalso
      have h1 := eventWeight_pos e
      simp only [measureW, weightSum, List.map_cons, List.sum_cons] at h
      omega
  | succ n ih =>
    intro w pending h
    rcases pending with _ | ⟨e, rest⟩
    · simp [runFuel]
    · simp only [runFuel]
      apply ih
      have hsum := extractMinGo_weight rest [] e
      have hdec := doEvent_measure w (extractMinGo [] e rest).1
      simp only [measureW, weightSum, List.map_nil, List.sum_nil, List.map_cons,
        List.sum_cons, List.map_append, List.sum_append] at h hsum hdec ⊢
      omega

/-- C9: the simulation loop terminates on every finite initial event list
over riders of positive patience and drivers of positive speed: running
with fuel equal to the termination measure succeeds; and a run with no
pending events returns at once without executing any event. -/
theorem run_terminates :
    (∀ (w : World) (pending : List Event),
      (∀ r ∈ w.riders, 0 < r.patience) → (∀ d ∈ w.drivers, 0 < d.speed) →
      (runFuel (measureW w pending) w pending).isSome = true) ∧
    (∀ (n : Nat) (w : World), runFuel n w [] = some w) := by
  refine ⟨fun w pending _ _ => runFuel_isSome (measureW w pending) w pending (le_refl _), ?_⟩
  intro n w
  cases n <;> rfl

/-- C9 witness: the scenario world with one initial rider request
terminates within the measure. -/
theorem run_terminates_witness :
    (runFuel (measureW w7 [Event.riderRequest 0 "R0"]) w7
      [Event.riderRequest 0 "R0"]).isSome = true :=
  run_terminates.1 w7 [Event.riderRequest 0 "R0"] (by decide) (by decide)

end Taxi
